import Mathlib

/-!
# Verification of the CPT analysis report generator

A shallow embedding of the data-aggregation and report-assembly logic of
`app_improved.py` (functions `generate_custom_cpt_report` and
`show_report_preview`), together with theorems settling the frozen claims
about that code.

Modelling conventions:
* A pandas `DataFrame` row becomes a `Record`; column *presence* is tracked
  by boolean flags on `Dataset` (a column either exists in the frame or not).
* `negotiated_rate` cells may be missing (`Option ℚ`); the spec's data model
  declares the categorical columns (`billing_code`, `billing_class`,
  `negotiated_type`, `city`) as strings, so they are embedded as `String`.
* Machine floats are embedded as exact rationals `ℚ`; `float('nan')`
  (the result of `mean`/`median`/`std` over an empty selection) is embedded
  as `Option.none`, and Python's string formatting of NaN (`"$nan"`) is
  reproduced by the formatting helpers.
* `Series.value_counts` returns the distinct values with their counts,
  sorted by descending count; its default quicksort is unstable, so the
  order among equal counts is unspecified by the source.  The deterministic
  `valueCounts` fixes ties to first appearance (one allowed resolution, the
  spec's prescription); the relational `validValueCounts` captures the
  source's actual guarantee, and the ordering claim is settled against it.
* `Series.quantile` uses pandas' default linear interpolation: position
  `q * (n - 1)` over the sorted values.
* `round(x, 2)` / `"%.2f"` rounding is embedded as round-half-up to the
  nearest hundredth (`Mathlib.round`); no claim depends on tie behaviour.
-/

set_option maxRecDepth 40000

namespace CptReport

/-- One provider row of the input table (spec §3 Record).  Other columns of
the CSV are ignored by the program. -/
structure Record where
  billing_code : String
  billing_class : String
  negotiated_type : String
  negotiated_rate : Option ℚ
  city : String
deriving DecidableEq

instance : Inhabited Record := ⟨⟨"", "", "", none, ""⟩⟩

/-- The in-memory table: which recognized columns are present in the CSV
header, plus the ordered rows (spec §3 Dataset). -/
structure Dataset where
  hasBillingCode : Bool
  hasBillingClass : Bool
  hasNegType : Bool
  hasRate : Bool
  hasCity : Bool
  rows : List Record
deriving DecidableEq

/-- `df['negotiated_rate'].dropna()`: the non-missing rate values, in row
order. -/
def dropna (ds : Dataset) : List ℚ :=
  ds.rows.filterMap (·.negotiated_rate)

/-! ## Rate Statistics Engine -/

/-- Sorting a rate series ascending (the order statistics that pandas
quantile/median interpolate over). -/
def sortRates (rs : List ℚ) : List ℚ :=
  List.insertionSort (· ≤ ·) rs

/-- Linear interpolation of a sorted list at fractional position `h`:
value `xs[i] + (h - i) * (xs[i+1] - xs[i])` with `i = ⌊h⌋` (the upper index
clamped to the last element).  `Rat.floor` is used rather than `⌊·⌋` so the
definition evaluates by kernel reduction; the two agree
(`ratFloor_coe` below). -/
def interpAt (xs : List ℚ) (h : ℚ) : ℚ :=
  let i : ℕ := (Rat.floor h).toNat
  let lo := xs.getD i 0
  let hi := xs.getD (min (i + 1) (xs.length - 1)) 0
  lo + (h - (Rat.floor h : ℚ)) * (hi - lo)

/-- Linear-interpolation quantile over an already sorted list, pandas
`Series.quantile(q, interpolation='linear')`: position `h = q * (n - 1)`. -/
def quantileSorted (xs : List ℚ) (q : ℚ) : ℚ :=
  interpAt xs (q * ((xs.length : ℚ) - 1))

/-- `rates.quantile(q)`. -/
def quantile (rs : List ℚ) (q : ℚ) : ℚ :=
  quantileSorted (sortRates rs) q

/-- `rates.mean()` (sum divided by count; NaN — here junk 0-division — only
for an empty series, which every caller guards against). -/
def rmean (rs : List ℚ) : ℚ := rs.sum / rs.length

/-- `rates.median()`: pandas median is the linear-interpolation quantile at
`q = 1/2`. -/
def rmedian (rs : List ℚ) : ℚ := quantile rs (1/2)

/-- `rates.min()`: head of the sorted series. -/
def rmin (rs : List ℚ) : ℚ := (sortRates rs).headD 0

/-- `rates.max()`: last of the sorted series. -/
def rmax (rs : List ℚ) : ℚ := (sortRates rs).getLastD 0

/-- `series.mean()` with pandas NaN semantics: NaN (`none`) on an empty
selection. -/
def meanOpt (rs : List ℚ) : Option ℚ :=
  if rs = [] then none else some (rmean rs)

/-- `series.median()` with pandas NaN semantics. -/
def medianOpt (rs : List ℚ) : Option ℚ :=
  if rs = [] then none else some (rmedian rs)

/-- `round(x, 2)`: round to the nearest hundredth. -/
def round2 (q : ℚ) : ℚ := (round (100 * q) : ℤ) / 100

/-- `Rat.floor` agrees with the mathematical floor. -/
theorem ratFloor_coe (q : ℚ) : (Rat.floor q : ℤ) = ⌊q⌋ := by
  rw [Rat.floor_def', Rat.floor_def]

/-! ## Display formatting

Python f-string formatting of floats with a fixed number of decimals,
embedded exactly on `ℚ` (round-half-up on the scaled value; floats that are
NaN — embedded `none` — format as `"nan"`, which is what
`f-string` formatting of `float('nan')` produces at any precision). -/

/-- Zero-padded decimal digits of `n`, at least `w` characters wide. -/
def padZeros (w : ℕ) (n : ℕ) : String :=
  String.mk (List.replicate (w - (toString n).length) '0') ++ toString n

/-- `f-string` fixed-point formatting `%.{dec}f` of a rational. -/
def fmtFixed (dec : ℕ) (q : ℚ) : String :=
  let m : ℤ := round ((10 ^ dec : ℕ) * q)
  let sign := if m < 0 then "-" else ""
  let a : ℕ := m.natAbs
  if dec = 0 then sign ++ toString a
  else sign ++ toString (a / 10 ^ dec) ++ "." ++ padZeros dec (a % 10 ^ dec)

/-- Thousands grouping of a digit string, working from the right
(`f-string` `:,` format). -/
def commaRev : List Char → List Char
  | a :: b :: c :: d :: rest => a :: b :: c :: ',' :: commaRev (d :: rest)
  | l => l

/-- `f"\x7bn:,\x7d"`: decimal digits with thousands separators. -/
def fmtComma (n : ℕ) : String :=
  String.mk (commaRev (toString n).data.reverse).reverse

/-- `f"$\x7bx:.2f\x7d"` where `x` may be NaN. -/
def fmtMoney2 : Option ℚ → String
  | none => "$nan"
  | some q => "$" ++ fmtFixed 2 q

/-- `f"$\x7bx:.0f\x7d"` where `x` may be NaN. -/
def fmtMoney0 : Option ℚ → String
  | none => "$nan"
  | some q => "$" ++ fmtFixed 0 q

/-- `f"\x7bx:.1f\x7d%"`. -/
def fmtPct1 (q : ℚ) : String := fmtFixed 1 q ++ "%"

/-- `(count / total) * 100`, the percentage formula used by every section. -/
def pctOf (count total : ℕ) : ℚ := ((count : ℚ) / total) * 100

/-! ## Categorical / Geographic Aggregator: `Series.value_counts` -/

/-- One entry of a `value_counts` result: a distinct value, how many times
it occurs, and the index of its first appearance (used to fix the tie
order). -/
structure CatCount where
  value : String
  count : ℕ
  firstIdx : ℕ
deriving DecidableEq

/-- Fuel-driven helper for `keepFirst` (structural recursion so that the
definition evaluates by kernel reduction; the fuel is always at least the
list length). -/
def keepFirstAux : ℕ → List String → List String
  | 0, _ => []
  | _, [] => []
  | fuel + 1, v :: rest => v :: keepFirstAux fuel (rest.filter (· ≠ v))

/-- The distinct values of a list in order of first appearance. -/
def keepFirst (l : List String) : List String := keepFirstAux l.length l

/-- The `value_counts` ordering: descending count, ties by first
appearance. -/
def catLE (a b : CatCount) : Prop :=
  b.count < a.count ∨ (a.count = b.count ∧ a.firstIdx ≤ b.firstIdx)

instance : DecidableRel catLE := fun a b => by unfold catLE; infer_instance

instance : IsTotal CatCount catLE := by
  constructor
  intro a b
  unfold catLE
  omega

instance : IsTrans CatCount catLE := by
  constructor
  intro a b c hab hbc
  unfold catLE at *
  omega

/-- `series.value_counts()`: distinct values with their multiplicities,
sorted by descending count.  pandas sorts with its default quicksort,
which is unstable, so the relative order of equal-count values is
unspecified by the source; a deterministic embedding must pick one allowed
order, and this one fixes ties to first appearance (the spec's
prescription) by sorting with the total order `catLE`.  That tie choice is
a stipulation of the model, not a guarantee of the program:
`validValueCounts` below captures exactly what the source does guarantee,
and ordering claims are settled against it. -/
def valueCounts (vals : List String) : List CatCount :=
  List.insertionSort catLE
    ((keepFirst vals).map fun v => ⟨v, vals.count v, vals.indexOf v⟩)

/-- What `value_counts()` (and the redundant
`sort_values(ascending=False)`) actually guarantee: the result lists the
canonical entries — each distinct value once, with its multiplicity and
first-appearance index — in some order that is non-increasing by count.
Because the default quicksort is unstable, any list satisfying this
predicate is a possible output of the source; nothing stronger holds of
the program. -/
def validValueCounts (vals : List String) (l : List CatCount) : Prop :=
  l.Perm ((keepFirst vals).map fun v => ⟨v, vals.count v, vals.indexOf v⟩)
  ∧ l.Pairwise fun a b => b.count ≤ a.count

/-! ## Column selections and grouped rate series -/

/-- `df['billing_class']`. -/
def classVals (ds : Dataset) : List String := ds.rows.map (·.billing_class)

/-- `df['negotiated_type']`. -/
def negTypeVals (ds : Dataset) : List String := ds.rows.map (·.negotiated_type)

/-- `df['city']`. -/
def cityVals (ds : Dataset) : List String := ds.rows.map (·.city)

/-- `df['billing_class'].value_counts()`. -/
def billingCounts (ds : Dataset) : List CatCount := valueCounts (classVals ds)

/-- `df['negotiated_type'].value_counts()`. -/
def negTypeCounts (ds : Dataset) : List CatCount := valueCounts (negTypeVals ds)

/-- `df['city'].value_counts().sort_values(ascending=False)`: the canonical
city ranking.  Re-sorting the already descending counts is the identity
under the stable reading, so this is the plain `value_counts`. -/
def cityStatsRanking (ds : Dataset) : List CatCount := valueCounts (cityVals ds)

/-- The non-missing rates of the records in billing class `c`
(`df.groupby('billing_class')['negotiated_rate']` for group `c`, which
skips NaN entries). -/
def classRates (ds : Dataset) (c : String) : List ℚ :=
  (ds.rows.filter (·.billing_class = c)).filterMap (·.negotiated_rate)

/-- The non-missing rates of the records of city `c`
(`df[df['city'] == c]['negotiated_rate']`, whose `mean`/`median` skip
NaN). -/
def cityRates (ds : Dataset) (c : String) : List ℚ :=
  (ds.rows.filter (·.city = c)).filterMap (·.negotiated_rate)

/-- Sample variance with `ddof = 1` (denominator `n - 1`), the quantity
under pandas `std`'s square root. -/
def sampleVar (g : List ℚ) : ℚ :=
  (g.map fun x => (x - rmean g) ^ 2).sum / ((g.length : ℚ) - 1)

/-- `round(sqrt v, 2)` computed exactly on `ℚ`: with `v = a / b ≥ 0`,
`round(100 * sqrt v + 1/2) = ⌊(⌊sqrt (40000 a b)⌋ + b) / (2 b)⌋`, all in
integer arithmetic (justified by `sqrtRound2_brackets` below). -/
def sqrtRound2 (v : ℚ) : ℚ :=
  (((Nat.sqrt (40000 * v.num.toNat * v.den) + v.den) / (2 * v.den) : ℕ) : ℚ) / 100

/-- pandas `std` (ddof = 1) followed by `.round(2)`: NaN (`none`) on fewer
than two observations, else the sample standard deviation rounded to two
decimals. -/
def stdRounded (g : List ℚ) : Option ℚ :=
  if g.length < 2 then none else some (sqrtRound2 (sampleVar g))

/-! ## Report Model Assembler: the exported document

`generate_custom_cpt_report` is embedded as a renderer-agnostic element
list; purely visual artefacts (styles, spacers, page layout, the saved PNG
buffers) carry no data and are omitted.  The generation timestamp is
external input (wall clock) and is likewise omitted. -/

/-- A report element: the data content handed to the document renderer. -/
inductive RElem where
  | heading : String → RElem
  | text : String → RElem
  | table : List (List String) → RElem
  | histChart : List ℚ → RElem
  | barChart : List (String × Option ℚ) → RElem
deriving DecidableEq

/-- `df['billing_code'].iloc[0] if 'billing_code' in df.columns else
"27130"` (the export path). -/
def reportCpt (ds : Dataset) : String :=
  if ds.hasBillingCode then (ds.rows.headD default).billing_code else "27130"

/-- Title and metadata lines: always present. -/
def titleSection (ds : Dataset) : List RElem :=
  [RElem.heading ("CPT " ++ reportCpt ds ++ " Analysis Report"),
   RElem.text "Insurance: EMPLOYER",
   RElem.text "Plan: 360-orthopedics",
   RElem.text ("CPT Code: " ++ reportCpt ds),
   RElem.text ("Total Records: " ++ fmtComma ds.rows.length)]

def rateHeading : String := "Rate Analysis - What Do Providers Charge?"

def rateExplanation : String :=
  "This section shows how much different healthcare providers charge for this procedure. The table below shows key statistics, and the chart shows the distribution of rates across all providers."

/-- The percentile row labels of the rate statistics table. -/
def percentileLabel (p : ℕ) : String :=
  toString p ++ "% of providers charge less than"

/-- The `rate_stats` table built at lines 95-117 of the source. -/
def rateStatsTable (rs : List ℚ) : List (List String) :=
  [["What This Means", "Value"],
   ["Average Rate", fmtMoney2 (some (rmean rs))],
   ["Most Common Rate (Median)", fmtMoney2 (some (rmedian rs))],
   ["Lowest Rate Found", fmtMoney2 (some (rmin rs))],
   ["Highest Rate Found", fmtMoney2 (some (rmax rs))],
   ["Range (High - Low)", fmtMoney2 (some (rmax rs - rmin rs))],
   ["Total Providers Analyzed", fmtComma rs.length]]
  ++ [25, 50, 75, 90, 95].map fun p =>
       [percentileLabel p, fmtMoney2 (some (quantile rs ((p : ℚ) / 100)))]

/-- The Rate Analysis block: heading and explanation are emitted
unconditionally (source lines 74-89); the statistics table and the
histogram only when the column exists and has a non-missing value. -/
def rateSection (ds : Dataset) : List RElem :=
  [RElem.heading rateHeading, RElem.text rateExplanation]
  ++ (if ds.hasRate then
        (if dropna ds ≠ [] then
          [RElem.table (rateStatsTable (dropna ds)),
           RElem.histChart (dropna ds)]
         else [])
      else [])

/-- The billing-class frequency table (source lines 198-204). -/
def billingDistTable (ds : Dataset) : List (List String) :=
  ["Service Type", "Number of Providers", "Percentage"] ::
  (billingCounts ds).map fun c =>
    [c.value, toString c.count, fmtPct1 (pctOf c.count ds.rows.length)]

/-- `df.groupby('billing_class')` iterates groups in ascending key
order. -/
def sortedClasses (ds : Dataset) : List String :=
  List.insertionSort (· ≤ ·) (keepFirst (classVals ds))

/-- One row of the per-class rate table (source lines 220-230):
`agg(['mean','median','std','count']).round(2)` formatted with f-strings;
the NaN results of empty/singleton groups format as `"$nan"`. -/
def billingRateRow (ds : Dataset) (c : String) : List String :=
  let g := classRates ds c
  [c,
   fmtMoney2 ((meanOpt g).map round2),
   fmtMoney2 ((medianOpt g).map round2),
   fmtMoney2 (stdRounded g),
   toString g.length]

/-- The per-class rate table. -/
def billingRateTable (ds : Dataset) : List (List String) :=
  ["Service Type", "Average Rate", "Most Common Rate", "Rate Variation", "Count"] ::
  (sortedClasses ds).map (billingRateRow ds)

/-- The Billing Class Analysis block (source lines 195-242). -/
def billingSection (ds : Dataset) : List RElem :=
  if ds.hasBillingClass then
    [RElem.heading "Billing Class Analysis",
     RElem.table (billingDistTable ds)]
    ++ (if ds.hasRate then [RElem.table (billingRateTable ds)] else [])
  else []

def negTypeExplanation : String :=
  "This shows different types of payment contracts between insurance companies and healthcare providers. Different contract types can affect the final cost you pay."

/-- The Contract Type Analysis block (source lines 248-276). -/
def negTypeSection (ds : Dataset) : List RElem :=
  if ds.hasNegType then
    [RElem.heading "Contract Type Analysis - Payment Methods",
     RElem.text negTypeExplanation,
     RElem.table
       (["Contract Type", "Number of Providers", "Percentage"] ::
        (negTypeCounts ds).map fun c =>
          [c.value, toString c.count, fmtPct1 (pctOf c.count ds.rows.length)])]
  else []

def cityExplanation : String :=
  "This section shows which cities have healthcare providers offering this procedure and their average rates. This can help you find providers in your area or compare costs across different locations."

/-- Display-only truncation of long city names (source line 308). -/
def truncCity (c : String) : String :=
  if 20 < c.length then c.take 20 ++ "..." else c

/-- One row of the all-cities table (source lines 300-321): when the rate
column is present the mean/median over the city's rows are formatted even
when they are NaN; `"N/A"` appears only when the column is absent. -/
def cityRow (ds : Dataset) (c : CatCount) : List String :=
  if ds.hasRate then
    [truncCity c.value, toString c.count, fmtPct1 (pctOf c.count ds.rows.length),
     fmtMoney0 (meanOpt (cityRates ds c.value)),
     fmtMoney0 (medianOpt (cityRates ds c.value))]
  else
    [truncCity c.value, toString c.count, fmtPct1 (pctOf c.count ds.rows.length),
     "N/A", "N/A"]

/-- The all-cities table: never truncated to a top N. -/
def cityTable (ds : Dataset) : List (List String) :=
  ["City", "# of Providers", "% of Total", "Average Rate", "Most Common Rate"] ::
  (cityStatsRanking ds).map (cityRow ds)

/-- The bar-chart series (source lines 348-357): loop over the top 15
cities by count, appending a bar only when the rate column is present and
the city's sub-frame is non-empty. -/
def chartSeries (ds : Dataset) : List (String × Option ℚ) :=
  ((cityStatsRanking ds).take 15).filterMap fun c =>
    if ds.hasRate ∧ ds.rows.filter (·.city = c.value) ≠ [] then
      some (c.value, meanOpt (cityRates ds c.value))
    else none

/-- The one-line geographic summary (source line 341; the source raises
`IndexError` on a zero-row frame here, which no claim exercises). -/
def topCityLine (ds : Dataset) : String :=
  match cityStatsRanking ds with
  | [] => "City with Most Providers: "
  | c :: _ =>
      "City with Most Providers: " ++ c.value ++ " (" ++ toString c.count ++ " providers)"

/-- The Geographic Distribution block (source lines 282-395). -/
def citySection (ds : Dataset) : List RElem :=
  if ds.hasCity then
    [RElem.heading "Geographic Distribution - Where Are Providers Located?",
     RElem.text cityExplanation,
     RElem.heading "All Cities with Providers",
     RElem.table (cityTable ds),
     RElem.text ("Total Unique Cities: " ++ toString (cityStatsRanking ds).length),
     RElem.text (topCityLine ds),
     RElem.barChart (chartSeries ds)]
  else []

/-- The full exported report, `generate_custom_cpt_report`: fixed section
order, each block gated on its column flag. -/
def buildReport (ds : Dataset) : List RElem :=
  titleSection ds ++ rateSection ds ++ billingSection ds
    ++ negTypeSection ds ++ citySection ds

/-! ## The interactive preview, `show_report_preview`

The preview duplicates the aggregation expressions of the export path.
Each figure the two views share is embedded once per path, translated from
the respective function, so that their agreement is a theorem rather than a
definition. -/

/-- The five key statistics both views display for the rate series. -/
structure RateStatsView where
  mean : ℚ
  median : ℚ
  lo : ℚ
  hi : ℚ
  providers : ℕ
deriving DecidableEq

/-- The rate statistics as computed by the export path (source lines
91-102): shown only when the column is present with a non-missing value. -/
def exportRateStatsView (ds : Dataset) : Option RateStatsView :=
  if ds.hasRate then
    if dropna ds ≠ [] then
      some ⟨rmean (dropna ds), rmedian (dropna ds), rmin (dropna ds),
            rmax (dropna ds), (dropna ds).length⟩
    else none
  else none

/-- The rate statistics as computed by the preview path (source lines
423-436). -/
def previewRateStatsView (ds : Dataset) : Option RateStatsView :=
  if ds.hasRate then
    if dropna ds ≠ [] then
      some ⟨rmean (dropna ds), rmedian (dropna ds), rmin (dropna ds),
            rmax (dropna ds), (dropna ds).length⟩
    else none
  else none

/-- `df['billing_code'].iloc[0] if 'billing_code' in df.columns else
"27130"` (the preview path, source line 412). -/
def previewCpt (ds : Dataset) : String :=
  if ds.hasBillingCode then (ds.rows.headD default).billing_code else "27130"

/-- Preview total-record count (source line 417). -/
def previewTotalRecords (ds : Dataset) : ℕ := ds.rows.length

/-- Export total-record count (source line 67). -/
def exportTotalRecords (ds : Dataset) : ℕ := ds.rows.length

/-- Preview billing-class counts (source line 460). -/
def previewBillingCounts (ds : Dataset) : List CatCount :=
  valueCounts (ds.rows.map (·.billing_class))

/-- Preview contract-type counts (source line 481). -/
def previewNegTypeCounts (ds : Dataset) : List CatCount :=
  valueCounts (ds.rows.map (·.negotiated_type))

/-- Preview city ranking (source line 492). -/
def previewCityRanking (ds : Dataset) : List CatCount :=
  valueCounts (ds.rows.map (·.city))

/-- The cents value displayed by the export path for a billing class's
average rate: the `groupby` mean is rounded by `.round(2)` and then
formatted with two decimals (source lines 220-226). -/
def exportCatMeanCents (ds : Dataset) (c : String) : Option ℤ :=
  ((meanOpt (classRates ds c)).map round2).map fun q => round (100 * q)

/-- The cents value displayed by the preview path for a billing class's
average rate: the raw mean is formatted with two decimals (source lines
474-475). -/
def previewCatMeanCents (ds : Dataset) (c : String) : Option ℤ :=
  (meanOpt (classRates ds c)).map fun q => round (100 * q)

/-- The preview bar-chart series (source lines 508-518): built only when
the rate column is present; inside, a bar per top-15 city whose sub-frame
is non-empty. -/
def previewChartSeries (ds : Dataset) : List (String × Option ℚ) :=
  if ds.hasRate then
    ((previewCityRanking ds).take 15).filterMap fun c =>
      if ds.rows.filter (·.city = c.value) ≠ [] then
        some (c.value, meanOpt (cityRates ds c.value))
      else none
  else []

/-! ## Helper lemmas -/

theorem floorIdx_cast {h : ℚ} (h0 : 0 ≤ h) :
    (((Rat.floor h).toNat : ℕ) : ℚ) = ((Rat.floor h : ℤ) : ℚ) := by
  have hnn : 0 ≤ ⌊h⌋ := Int.floor_nonneg.mpr h0
  have ht : ((Rat.floor h).toNat : ℤ) = (Rat.floor h : ℤ) := by
    rw [ratFloor_coe]; exact Int.toNat_of_nonneg hnn
  exact_mod_cast congrArg (fun z : ℤ => (z : ℚ)) ht

theorem floorIdx_le {h : ℚ} (h0 : 0 ≤ h) : (((Rat.floor h).toNat : ℕ) : ℚ) ≤ h := by
  rw [floorIdx_cast h0, ratFloor_coe]
  exact Int.floor_le h

theorem floorIdx_lt {h : ℚ} (h0 : 0 ≤ h) : h < (((Rat.floor h).toNat : ℕ) : ℚ) + 1 := by
  rw [floorIdx_cast h0, ratFloor_coe]
  exact Int.lt_floor_add_one h

theorem floorIdx_le_len {xs : List ℚ} {h : ℚ} (h0 : 0 ≤ h)
    (hub : h ≤ (xs.length : ℚ) - 1) : (Rat.floor h).toNat ≤ xs.length - 1 := by
  rcases Nat.eq_zero_or_pos xs.length with hz | hpos
  · exfalso
    rw [hz] at hub
    norm_num at hub
    linarith
  · have hcast : ((xs.length : ℚ) - 1) = ((xs.length - 1 : ℕ) : ℚ) := by
      push_cast [Nat.cast_sub hpos]
      ring
    have : ⌊h⌋ ≤ ((xs.length - 1 : ℕ) : ℤ) := by
      have := Int.floor_le_floor (hcast ▸ hub)
      rwa [Int.floor_natCast] at this
    rw [ratFloor_coe]
    exact Int.toNat_le.mpr this

theorem getD_mono_of_sorted {xs : List ℚ} (hs : List.Sorted (· ≤ ·) xs) {i j : ℕ}
    (hij : i ≤ j) (hj : j < xs.length) : xs.getD i 0 ≤ xs.getD j 0 := by
  have hi : i < xs.length := lt_of_le_of_lt hij hj
  have := hs.rel_get_of_le (a := ⟨i, hi⟩) (b := ⟨j, hj⟩) hij
  simpa [List.getD_eq_getElem?_getD, List.getElem?_eq_getElem hi,
    List.getElem?_eq_getElem hj, List.get_eq_getElem] using this

/-- Normal form of the interpolation with the floor written as a natural
index (valid at nonnegative positions). -/
theorem interpAt_eq {xs : List ℚ} {h : ℚ} (h0 : 0 ≤ h) :
    interpAt xs h =
      xs.getD (Rat.floor h).toNat 0
      + (h - (((Rat.floor h).toNat : ℕ) : ℚ)) *
        (xs.getD (min ((Rat.floor h).toNat + 1) (xs.length - 1)) 0
          - xs.getD (Rat.floor h).toNat 0) := by
  unfold interpAt
  rw [floorIdx_cast h0]

theorem interpAt_mono {xs : List ℚ} (hs : List.Sorted (· ≤ ·) xs) (hne : xs ≠ [])
    {g h : ℚ} (h0 : 0 ≤ g) (hgh : g ≤ h) (hub : h ≤ (xs.length : ℚ) - 1) :
    interpAt xs g ≤ interpAt xs h := by
  have hlen : 1 ≤ xs.length := List.length_pos.mpr hne
  have h0' : 0 ≤ h := le_trans h0 hgh
  rw [interpAt_eq h0, interpAt_eq h0']
  set i := (Rat.floor g).toNat with hidef
  set j := (Rat.floor h).toNat with hjdef
  have hia : ((i : ℕ) : ℚ) ≤ g := floorIdx_le h0
  have hib : g < ((i : ℕ) : ℚ) + 1 := floorIdx_lt h0
  have hja : ((j : ℕ) : ℚ) ≤ h := floorIdx_le h0'
  have hiu : i ≤ xs.length - 1 := floorIdx_le_len h0 (le_trans hgh hub)
  have hju : j ≤ xs.length - 1 := floorIdx_le_len h0' hub
  have hmini : i ≤ min (i + 1) (xs.length - 1) := le_min (Nat.le_succ i) hiu
  have hminj : j ≤ min (j + 1) (xs.length - 1) := le_min (Nat.le_succ j) hju
  have hlohi : xs.getD i 0 ≤ xs.getD (min (i + 1) (xs.length - 1)) 0 :=
    getD_mono_of_sorted hs hmini (by omega)
  have hlohj : xs.getD j 0 ≤ xs.getD (min (j + 1) (xs.length - 1)) 0 :=
    getD_mono_of_sorted hs hminj (by omega)
  by_cases hij : i = j
  · rw [← hij] at hja hlohj ⊢
    nlinarith [sub_nonneg.mpr hlohi, hgh]
  · -- the positions fall in different segments: `i < j`
    have hijlt : i < j := by
      rcases lt_or_gt_of_ne hij with hlt | hgt
      · exact hlt
      · exfalso
        have : ((j : ℕ) : ℚ) + 1 ≤ ((i : ℕ) : ℚ) := by exact_mod_cast Nat.succ_le_of_lt hgt
        have : h < ((i : ℕ) : ℚ) := by
          calc h < ((j : ℕ) : ℚ) + 1 := floorIdx_lt h0'
          _ ≤ ((i : ℕ) : ℚ) := this
        linarith
    have hmidj : xs.getD (min (i + 1) (xs.length - 1)) 0 ≤ xs.getD j 0 :=
      getD_mono_of_sorted hs (le_trans (min_le_left _ _) hijlt) (by omega)
    have hgf1 : g - ((i : ℕ) : ℚ) ≤ 1 := by linarith
    have hgf0 : 0 ≤ g - ((i : ℕ) : ℚ) := by linarith
    have hhf0 : 0 ≤ h - ((j : ℕ) : ℚ) := by linarith
    nlinarith [sub_nonneg.mpr hlohi, sub_nonneg.mpr hlohj]

theorem sortRates_sorted (rs : List ℚ) : (sortRates rs).Sorted (· ≤ ·) :=
  List.sorted_insertionSort _ _

theorem sortRates_length (rs : List ℚ) : (sortRates rs).length = rs.length :=
  (List.perm_insertionSort _ _).length_eq

theorem sortRates_ne_nil {rs : List ℚ} (h : rs ≠ []) : sortRates rs ≠ [] := by
  intro hc
  apply h
  have := sortRates_length rs
  rw [hc] at this
  exact List.length_eq_zero.mp this.symm

theorem quantile_mono (rs : List ℚ) (hne : rs ≠ []) {q q' : ℚ}
    (h0 : 0 ≤ q) (hqq : q ≤ q') (h1 : q' ≤ 1) : quantile rs q ≤ quantile rs q' := by
  unfold quantile quantileSorted
  have hxne : sortRates rs ≠ [] := sortRates_ne_nil hne
  have hlen : 1 ≤ (sortRates rs).length := List.length_pos.mpr hxne
  have hn1 : 0 ≤ ((sortRates rs).length : ℚ) - 1 := by
    have : (1 : ℚ) ≤ ((sortRates rs).length : ℚ) := by exact_mod_cast hlen
    linarith
  refine interpAt_mono (sortRates_sorted rs) hxne (mul_nonneg h0 hn1)
    (mul_le_mul_of_nonneg_right hqq hn1) ?_
  calc q' * (((sortRates rs).length : ℚ) - 1)
      ≤ 1 * (((sortRates rs).length : ℚ) - 1) := mul_le_mul_of_nonneg_right h1 hn1
  _ = ((sortRates rs).length : ℚ) - 1 := one_mul _

theorem getD_zero_eq_headD (xs : List ℚ) : xs.getD 0 0 = xs.headD 0 := by
  cases xs <;> rfl

theorem getD_last_eq_getLastD (xs : List ℚ) (h : xs ≠ []) :
    xs.getD (xs.length - 1) 0 = xs.getLastD 0 := by
  induction xs with
  | nil => exact absurd rfl h
  | cons a t ih =>
      cases t with
      | nil => rfl
      | cons b u =>
          have h1 : (a :: b :: u).length - 1 = (b :: u).length - 1 + 1 := by
            simp
          rw [h1]
          have h2 : (a :: b :: u).getD ((b :: u).length - 1 + 1) 0
              = (b :: u).getD ((b :: u).length - 1) 0 := rfl
          rw [h2, ih (by simp)]
          rfl

theorem quantile_zero (rs : List ℚ) (hne : rs ≠ []) : quantile rs 0 = rmin rs := by
  have hfl : Rat.floor (0 : ℚ) = 0 := (ratFloor_coe 0).trans Int.floor_zero
  unfold quantile quantileSorted rmin interpAt
  obtain ⟨a, t, hxs⟩ := List.exists_cons_of_ne_nil (sortRates_ne_nil hne)
  rw [hxs]
  simp only [zero_mul, hfl, Int.toNat_zero, List.getD_cons_zero, List.headD_cons,
    Int.cast_zero, sub_self, mul_zero, add_zero, sub_zero, zero_mul]

theorem quantile_one (rs : List ℚ) (hne : rs ≠ []) : quantile rs 1 = rmax rs := by
  unfold quantile quantileSorted rmax
  have hxne : sortRates rs ≠ [] := sortRates_ne_nil hne
  have hlen : 1 ≤ (sortRates rs).length := List.length_pos.mpr hxne
  rw [one_mul, interpAt_eq (by
    have : (1 : ℚ) ≤ ((sortRates rs).length : ℚ) := by exact_mod_cast hlen
    linarith)]
  have hcast : (((sortRates rs).length : ℚ) - 1) = (((sortRates rs).length - 1 : ℕ) : ℚ) := by
    push_cast [Nat.cast_sub hlen]
    ring
  have hfl : (Rat.floor (((sortRates rs).length : ℚ) - 1)).toNat = (sortRates rs).length - 1 := by
    have : (Rat.floor (((sortRates rs).length : ℚ) - 1) : ℤ)
        = (((sortRates rs).length - 1 : ℕ) : ℤ) := by
      rw [ratFloor_coe, hcast, Int.floor_natCast]
    rw [this]
    exact Int.toNat_natCast _
  rw [hfl, hcast, sub_self, zero_mul, add_zero]
  exact getD_last_eq_getLastD _ hxne

/-- Displaying two decimals of a value already rounded to two decimals
shows the same cents as displaying the raw value. -/
theorem round_round2_cents (q : ℚ) : round (100 * round2 q) = round (100 * q) := by
  have h : (100 : ℚ) * round2 q = ((round (100 * q) : ℤ) : ℚ) := by
    rw [round2]; ring
  rw [h, round_intCast]

theorem chartSeries_eq_previewChartSeries (ds : Dataset) :
    chartSeries ds = previewChartSeries ds := by
  unfold chartSeries previewChartSeries previewCityRanking cityStatsRanking cityVals
  cases h : ds.hasRate with
  | true => simp [h]
  | false =>
      simp only [h, Bool.false_eq_true, false_and, if_false]
      induction (valueCounts (ds.rows.map (·.city))).take 15 with
      | nil => rfl
      | cons a t ih => simp [ih]

theorem quantile_singleton (x q : ℚ) : quantile [x] q = x := by
  have hfl : Rat.floor (0 : ℚ) = 0 := (ratFloor_coe 0).trans Int.floor_zero
  have h1 : sortRates [x] = [x] := rfl
  unfold quantile quantileSorted
  rw [h1]
  have h2 : (([x] : List ℚ).length : ℚ) - 1 = 0 := by norm_num
  rw [h2, mul_zero]
  unfold interpAt
  simp only [hfl, Int.toNat_zero, List.getD_cons_zero, Int.cast_zero, sub_self,
    zero_mul, add_zero]

/-- The spec's formulation of the quantile (§4.1): linear-interpolation
quantile estimation, the standard definition with quantile position
`h = p/100 * (n - 1)`, i.e. the convex combination `(1-f)·x_⌊h⌋ + f·x_⌈h⌉`
of the two adjacent order statistics with `f` the fractional part of the
position.  Written from the spec's words, independently of the source
translation `quantile`, for comparison. -/
def specQuantile (rs : List ℚ) (p : ℕ) : ℚ :=
  let xs := sortRates rs
  let h : ℚ := ((p : ℚ) / 100) * ((xs.length : ℚ) - 1)
  let f : ℚ := h - (⌊h⌋ : ℚ)
  (1 - f) * xs.getD (⌊h⌋.toNat) 0 + f * xs.getD (⌈h⌉.toNat) 0

theorem quantile_eq_specQuantile (rs : List ℚ) (hne : rs ≠ []) (p : ℕ) (hp : p ≤ 100) :
    quantile rs ((p : ℚ) / 100) = specQuantile rs p := by
  unfold quantile quantileSorted specQuantile
  dsimp only
  set xs := sortRates rs with hxs
  have hxne : xs ≠ [] := sortRates_ne_nil hne
  have hlen : 1 ≤ xs.length := List.length_pos.mpr hxne
  have hn1 : 0 ≤ (xs.length : ℚ) - 1 := by
    have : (1 : ℚ) ≤ (xs.length : ℚ) := by exact_mod_cast hlen
    linarith
  set h : ℚ := ((p : ℚ) / 100) * ((xs.length : ℚ) - 1) with hh
  have h0 : 0 ≤ h := mul_nonneg (by positivity) hn1
  have hub : h ≤ (xs.length : ℚ) - 1 := by
    have hq1 : ((p : ℚ) / 100) ≤ 1 := by
      rw [div_le_one (by norm_num)]
      exact_mod_cast hp
    calc h ≤ 1 * ((xs.length : ℚ) - 1) := mul_le_mul_of_nonneg_right hq1 hn1
    _ = (xs.length : ℚ) - 1 := one_mul _
  rw [interpAt_eq h0]
  rw [show (Rat.floor h).toNat = (⌊h⌋).toNat by rw [ratFloor_coe]]
  set i := (⌊h⌋).toNat with hi
  have hfnn : 0 ≤ ⌊h⌋ := Int.floor_nonneg.mpr h0
  have hicast : ((i : ℕ) : ℚ) = ((⌊h⌋ : ℤ) : ℚ) := by
    exact_mod_cast congrArg (fun z : ℤ => (z : ℚ)) (Int.toNat_of_nonneg hfnn)
  by_cases hint : ((⌊h⌋ : ℤ) : ℚ) = h
  · -- the position is an integer: the fractional part vanishes
    have hceil : ⌈h⌉ = ⌊h⌋ := by
      conv_lhs => rw [← hint]
      exact Int.ceil_intCast _
    rw [← hicast] at hint
    rw [hceil, ← hint]
    simp only [Int.floor_natCast, Int.toNat_natCast, Int.cast_natCast]
    ring
  · -- fractional position: the upper index is `i + 1` and lies in range
    have hflt : ((⌊h⌋ : ℤ) : ℚ) < h := lt_of_le_of_ne (Int.floor_le h) hint
    have hceil : ⌈h⌉ = ⌊h⌋ + 1 := by
      refine le_antisymm ?_ ?_
      · refine Int.ceil_le.mpr ?_
        push_cast
        exact le_of_lt (Int.lt_floor_add_one h)
      · rw [Int.add_one_le_iff, Int.lt_ceil]
        exact hflt
    have hceil_toNat : (⌈h⌉).toNat = i + 1 := by
      rw [hceil, hi]
      omega
    have hcast2 : ((xs.length : ℚ) - 1) = ((xs.length - 1 : ℕ) : ℚ) := by
      push_cast [Nat.cast_sub hlen]
      ring
    have hflt2 : ((⌊h⌋ : ℤ) : ℚ) < ((xs.length - 1 : ℕ) : ℚ) := by
      rw [← hcast2]
      linarith
    have hzi : ⌊h⌋ < ((xs.length - 1 : ℕ) : ℤ) := by exact_mod_cast hflt2
    have hmin : min (i + 1) (xs.length - 1) = i + 1 := min_eq_left (by omega)
    rw [hmin, hceil_toNat, ← hicast]
    ring

/-! ## Claim theorems -/

unseal Rat.mul Rat.add Rat.sub Rat.inv in
/-- C4: the percentiles are linear-interpolation quantiles at position
`p/100 * (n-1)` (they agree with the spec's independent formulation); the
worked example [100,200,300,400,500] yields mean 300, median 300, min 100,
max 500, range 400, p25 = 200, p50 = 300, p75 = 400; and a single-value
input yields every percentile equal to that value with range 0. -/
theorem percentiles_linear_interpolation :
    (∀ rs : List ℚ, rs ≠ [] → ∀ p : ℕ, p ≤ 100 →
       quantile rs ((p : ℚ) / 100) = specQuantile rs p)
    ∧ (∀ x : ℚ,
        quantile [x] (25/100) = x ∧ quantile [x] (50/100) = x ∧ quantile [x] (75/100) = x
        ∧ quantile [x] (90/100) = x ∧ quantile [x] (95/100) = x
        ∧ rmax [x] - rmin [x] = 0)
    ∧ (rmean [100, 200, 300, 400, 500] = 300
       ∧ rmedian [100, 200, 300, 400, 500] = 300
       ∧ rmin [100, 200, 300, 400, 500] = 100
       ∧ rmax [100, 200, 300, 400, 500] = 500
       ∧ rmax [100, 200, 300, 400, 500] - rmin [100, 200, 300, 400, 500] = 400
       ∧ quantile [100, 200, 300, 400, 500] (25/100) = 200
       ∧ quantile [100, 200, 300, 400, 500] (50/100) = 300
       ∧ quantile [100, 200, 300, 400, 500] (75/100) = 400) := by
  refine ⟨quantile_eq_specQuantile, ?_, ?_⟩
  · intro x
    exact ⟨quantile_singleton x _, quantile_singleton x _, quantile_singleton x _,
      quantile_singleton x _, quantile_singleton x _, sub_self x⟩
  · refine ⟨?_, ?_, ?_, ?_, ?_, ?_, ?_, ?_⟩ <;> decide

/-- Witness for C4 at concrete inputs. -/
theorem percentiles_linear_interpolation_witness :
    quantile [1, 2] (((75 : ℕ) : ℚ) / 100) = specQuantile [1, 2] 75
    ∧ quantile [7] (25/100) = 7 :=
  ⟨percentiles_linear_interpolation.1 [1, 2] (by decide) 75 (by decide),
   (percentiles_linear_interpolation.2.1 7).1⟩

/-- C5: for every non-empty rate series the computed order statistics form
a non-decreasing chain: min ≤ p25 ≤ p50 ≤ p75 ≤ p90 ≤ p95 ≤ max. -/
theorem percentile_chain (rs : List ℚ) (hne : rs ≠ []) :
    rmin rs ≤ quantile rs (25/100)
    ∧ quantile rs (25/100) ≤ quantile rs (50/100)
    ∧ quantile rs (50/100) ≤ quantile rs (75/100)
    ∧ quantile rs (75/100) ≤ quantile rs (90/100)
    ∧ quantile rs (90/100) ≤ quantile rs (95/100)
    ∧ quantile rs (95/100) ≤ rmax rs := by
  refine ⟨?_, ?_, ?_, ?_, ?_, ?_⟩
  · rw [← quantile_zero rs hne]
    exact quantile_mono rs hne (by norm_num) (by norm_num) (by norm_num)
  · exact quantile_mono rs hne (by norm_num) (by norm_num) (by norm_num)
  · exact quantile_mono rs hne (by norm_num) (by norm_num) (by norm_num)
  · exact quantile_mono rs hne (by norm_num) (by norm_num) (by norm_num)
  · exact quantile_mono rs hne (by norm_num) (by norm_num) (by norm_num)
  · rw [← quantile_one rs hne]
    exact quantile_mono rs hne (by norm_num) (by norm_num) (by norm_num)

/-- Witness for C5 at a concrete input. -/
theorem percentile_chain_witness :
    rmin [3, 1, 2] ≤ quantile [3, 1, 2] (25/100)
    ∧ quantile [3, 1, 2] (25/100) ≤ quantile [3, 1, 2] (50/100)
    ∧ quantile [3, 1, 2] (50/100) ≤ quantile [3, 1, 2] (75/100)
    ∧ quantile [3, 1, 2] (75/100) ≤ quantile [3, 1, 2] (90/100)
    ∧ quantile [3, 1, 2] (90/100) ≤ quantile [3, 1, 2] (95/100)
    ∧ quantile [3, 1, 2] (95/100) ≤ rmax [3, 1, 2] :=
  percentile_chain [3, 1, 2] (by decide)

theorem rateSection_of_empty {ds : Dataset} (h : ds.hasRate = false ∨ dropna ds = []) :
    rateSection ds = [RElem.heading rateHeading, RElem.text rateExplanation] := by
  unfold rateSection
  rcases h with h | h
  · rw [h]
    simp
  · rw [h]
    simp

def ds2cex : Dataset := ⟨false, false, false, false, false, [⟨"", "", "", none, ""⟩]⟩

unseal Rat.mul Rat.add Rat.sub Rat.inv in
/-- Counterexample to C2 as stated: a dataset without the
`negotiated_rate` column whose report nevertheless contains the Rate
Analysis heading and explanation text. -/
theorem rate_section_never_absent_cex :
    ds2cex.hasRate = false
    ∧ RElem.heading rateHeading ∈ buildReport ds2cex
    ∧ RElem.text rateExplanation ∈ buildReport ds2cex := by
  decide

/-- The benign-element predicate: not a histogram chart, and not a table
headed by the rate-statistics header row. -/
def benign (e : RElem) : Prop :=
  (∀ rs, e ≠ RElem.histChart rs)
  ∧ (∀ t, e = RElem.table t → t.head? ≠ some ["What This Means", "Value"])

theorem benign_heading (s : String) : benign (RElem.heading s) := by
  constructor
  · intro rs hc
    cases hc
  · intro t ht
    cases ht

theorem benign_text (s : String) : benign (RElem.text s) := by
  constructor
  · intro rs hc
    cases hc
  · intro t ht
    cases ht

theorem benign_barChart (l : List (String × Option ℚ)) : benign (RElem.barChart l) := by
  constructor
  · intro rs hc
    cases hc
  · intro t ht
    cases ht

theorem benign_table {t : List (List String)}
    (h : t.head? ≠ some ["What This Means", "Value"]) : benign (RElem.table t) := by
  constructor
  · intro rs hc
    cases hc
  · intro u hu
    cases hu
    exact h

theorem benign_append {l₁ l₂ : List RElem} (h₁ : ∀ e ∈ l₁, benign e)
    (h₂ : ∀ e ∈ l₂, benign e) : ∀ e ∈ l₁ ++ l₂, benign e := by
  intro e he
  rcases List.mem_append.mp he with h | h
  exacts [h₁ e h, h₂ e h]

theorem benign_titleSection (ds : Dataset) : ∀ e ∈ titleSection ds, benign e := by
  intro e he
  simp only [titleSection, List.mem_cons, List.not_mem_nil, or_false] at he
  rcases he with rfl | rfl | rfl | rfl | rfl
  exacts [benign_heading _, benign_text _, benign_text _, benign_text _, benign_text _]

theorem benign_billingSection (ds : Dataset) : ∀ e ∈ billingSection ds, benign e := by
  intro e he
  unfold billingSection at he
  split_ifs at he with h1 h2
  · rcases List.mem_append.mp he with h | h
    · fin_cases h
      · exact benign_heading _
      · exact benign_table (by rw [billingDistTable, List.head?_cons]; decide)
    · fin_cases h
      exact benign_table (by rw [billingRateTable, List.head?_cons]; decide)
  · rcases List.mem_append.mp he with h | h
    · fin_cases h
      · exact benign_heading _
      · exact benign_table (by rw [billingDistTable, List.head?_cons]; decide)
    · simp at h
  · simp at he

theorem benign_negTypeSection (ds : Dataset) : ∀ e ∈ negTypeSection ds, benign e := by
  intro e he
  unfold negTypeSection at he
  split_ifs at he with h1
  · fin_cases he
    · exact benign_heading _
    · exact benign_text _
    · exact benign_table (by rw [List.head?_cons]; decide)
  · simp at he

theorem benign_citySection (ds : Dataset) : ∀ e ∈ citySection ds, benign e := by
  intro e he
  unfold citySection at he
  split_ifs at he with h1
  · fin_cases he
    · exact benign_heading _
    · exact benign_text _
    · exact benign_heading _
    · exact benign_table (by rw [cityTable, List.head?_cons]; decide)
    · exact benign_text _
    · exact benign_text _
    · exact benign_barChart _
  · simp at he

/-- C2 (amended): when the rate column is absent or has no usable value,
the Rate Analysis *table* and *histogram* are absent, but the section
heading and explanation text are still emitted (the source appends them
before checking the column), so the section is partially present. -/
theorem rate_section_partial (ds : Dataset) (h : ds.hasRate = false ∨ dropna ds = []) :
    RElem.heading rateHeading ∈ buildReport ds
    ∧ RElem.text rateExplanation ∈ buildReport ds
    ∧ (∀ t, RElem.table t ∈ buildReport ds → t.head? ≠ some ["What This Means", "Value"])
    ∧ (∀ e ∈ buildReport ds, ∀ rs, e ≠ RElem.histChart rs) := by
  have hrs := rateSection_of_empty h
  have hben : ∀ e ∈ buildReport ds, benign e := by
    unfold buildReport
    refine benign_append (benign_append (benign_append (benign_append
      (benign_titleSection ds) ?_) (benign_billingSection ds))
      (benign_negTypeSection ds)) (benign_citySection ds)
    intro e he
    rw [hrs] at he
    simp only [List.mem_cons, List.not_mem_nil, or_false] at he
    rcases he with rfl | rfl
    exacts [benign_heading _, benign_text _]
  refine ⟨?_, ?_, ?_, ?_⟩
  · simp [buildReport, hrs]
  · simp [buildReport, hrs]
  · intro t ht
    exact (hben _ ht).2 t rfl
  · intro e he rs
    exact (hben e he).1 rs

theorem mem_keepFirstAux :
    ∀ {fuel : ℕ} {l : List String} {a : String}, l.length ≤ fuel →
      (a ∈ keepFirstAux fuel l ↔ a ∈ l) := by
  intro fuel
  induction fuel with
  | zero =>
      intro l a h
      have hl : l = [] := List.length_eq_zero.mp (Nat.le_zero.mp h)
      subst hl
      simp [keepFirstAux]
  | succ f ih =>
      intro l a h
      cases l with
      | nil => simp [keepFirstAux]
      | cons v rest =>
          rw [keepFirstAux]
          have hlen : (rest.filter (· ≠ v)).length ≤ f :=
            le_trans (List.length_filter_le _ _) (Nat.le_of_succ_le_succ h)
          constructor
          · intro hm
            rcases List.mem_cons.mp hm with rfl | hm
            · exact List.mem_cons_self _ _
            · exact List.mem_cons_of_mem _
                (List.mem_of_mem_filter ((ih hlen).mp hm))
          · intro hm
            rcases List.mem_cons.mp hm with rfl | hm
            · exact List.mem_cons_self _ _
            · by_cases hv : a = v
              · exact hv ▸ List.mem_cons_self _ _
              · exact List.mem_cons_of_mem _
                  ((ih hlen).mpr (List.mem_filter.mpr ⟨hm, by simp [hv]⟩))

theorem mem_keepFirst {l : List String} {a : String} : a ∈ keepFirst l ↔ a ∈ l :=
  mem_keepFirstAux le_rfl

theorem nodup_keepFirstAux :
    ∀ {fuel : ℕ} {l : List String}, l.length ≤ fuel → (keepFirstAux fuel l).Nodup := by
  intro fuel
  induction fuel with
  | zero =>
      intro l h
      have hl : l = [] := List.length_eq_zero.mp (Nat.le_zero.mp h)
      subst hl
      exact List.nodup_nil
  | succ f ih =>
      intro l h
      cases l with
      | nil => exact List.nodup_nil
      | cons v rest =>
          rw [keepFirstAux]
          have hlen : (rest.filter (· ≠ v)).length ≤ f :=
            le_trans (List.length_filter_le _ _) (Nat.le_of_succ_le_succ h)
          refine List.nodup_cons.mpr ⟨?_, ih hlen⟩
          intro hv
          have := List.mem_filter.mp ((mem_keepFirstAux hlen).mp hv)
          simp at this

theorem nodup_keepFirst (l : List String) : (keepFirst l).Nodup :=
  nodup_keepFirstAux le_rfl

theorem length_filter_ne (t : List String) (v : String) :
    (t.filter (· ≠ v)).length = t.length - t.count v := by
  induction t with
  | nil => rfl
  | cons a u ih =>
      by_cases ha : a = v
      · subst ha
        rw [List.count_cons_self]
        have hle := List.count_le_length a u
        have : (a :: u).filter (· ≠ a) = u.filter (· ≠ a) := by simp
        rw [this, ih]
        simp only [List.length_cons]
        omega
      · have hfa : (a :: u).filter (· ≠ v) = a :: u.filter (· ≠ v) := by
          simp [List.filter_cons, ha]
        rw [hfa, List.count_cons_of_ne (Ne.symm ha)]
        have hle := List.count_le_length v u
        simp only [List.length_cons, ih]
        omega

theorem sum_count_keepFirstAux :
    ∀ {fuel : ℕ} {l : List String}, l.length ≤ fuel →
      ((keepFirstAux fuel l).map fun v => l.count v).sum = l.length := by
  intro fuel
  induction fuel with
  | zero =>
      intro l h
      have hl : l = [] := List.length_eq_zero.mp (Nat.le_zero.mp h)
      subst hl
      rfl
  | succ f ih =>
      intro l h
      cases l with
      | nil => rfl
      | cons v rest =>
          rw [keepFirstAux]
          have hlen : (rest.filter (· ≠ v)).length ≤ f :=
            le_trans (List.length_filter_le _ _) (Nat.le_of_succ_le_succ h)
          rw [List.map_cons, List.sum_cons]
          have hmapeq : (keepFirstAux f (rest.filter (· ≠ v))).map (fun w => (v :: rest).count w)
              = (keepFirstAux f (rest.filter (· ≠ v))).map
                  (fun w => (rest.filter (· ≠ v)).count w) := by
            refine List.map_congr_left ?_
            intro w hw
            have hwf := List.mem_filter.mp ((mem_keepFirstAux hlen).mp hw)
            have hwv : w ≠ v := by
              have := hwf.2
              simpa using this
            rw [List.count_cons_of_ne hwv, List.count_filter (by simp [hwv])]
          rw [hmapeq, ih hlen, List.count_cons_self, length_filter_ne,
            List.length_cons]
          have hle := List.count_le_length v rest
          omega

theorem sum_count_keepFirst (l : List String) :
    ((keepFirst l).map fun v => l.count v).sum = l.length :=
  sum_count_keepFirstAux le_rfl

theorem valueCounts_mem_iff {vals : List String} {c : CatCount} :
    c ∈ valueCounts vals ↔ c ∈ (keepFirst vals).map fun v => ⟨v, vals.count v, vals.indexOf v⟩ :=
  (List.perm_insertionSort _ _).mem_iff

theorem valueCounts_value_mem {vals : List String} {c : CatCount}
    (h : c ∈ valueCounts vals) : c.value ∈ vals := by
  obtain ⟨v, hv, rfl⟩ := List.mem_map.mp (valueCounts_mem_iff.mp h)
  exact mem_keepFirst.mp hv

theorem cityGroup_ne_nil {ds : Dataset} {c : CatCount} (h : c ∈ cityStatsRanking ds) :
    ds.rows.filter (·.city = c.value) ≠ [] := by
  have hv : c.value ∈ cityVals ds := valueCounts_value_mem h
  obtain ⟨r, hr, hrc⟩ := List.mem_map.mp hv
  intro hc
  have hmem : r ∈ ds.rows.filter (·.city = c.value) :=
    List.mem_filter.mpr ⟨hr, by simp [hrc]⟩
  rw [hc] at hmem
  exact List.not_mem_nil r hmem

theorem filterMap_if_all {α β : Type} (l : List α) (p : α → Prop) [DecidablePred p]
    (g : α → β) (h : ∀ a ∈ l, p a) :
    l.filterMap (fun a => if p a then some (g a) else none) = l.map g := by
  induction l with
  | nil => rfl
  | cons a t ih =>
      have hp := h a (List.mem_cons_self a t)
      simp only [List.filterMap_cons, if_pos hp, List.map_cons]
      rw [ih fun b hb => h b (List.mem_cons_of_mem a hb)]

theorem valueCounts_counts_sum (vals : List String) :
    ((valueCounts vals).map (·.count)).sum = vals.length := by
  have hperm : ((valueCounts vals).map (·.count)).Perm
      (((keepFirst vals).map fun v =>
        (⟨v, vals.count v, vals.indexOf v⟩ : CatCount)).map (·.count)) :=
    (List.perm_insertionSort _ _).map _
  rw [hperm.sum_eq, List.map_map]
  exact sum_count_keepFirst vals

theorem valueCounts_values_perm_dedup (vals : List String) :
    ((valueCounts vals).map (·.value)).Perm vals.dedup := by
  have h1 : ((valueCounts vals).map (·.value)).Perm (keepFirst vals) := by
    unfold valueCounts
    have h := (List.perm_insertionSort catLE
      ((keepFirst vals).map fun v => (⟨v, vals.count v, vals.indexOf v⟩ : CatCount))).map
        (fun c : CatCount => c.value)
    rw [List.map_map] at h
    have h2 : List.map ((fun c : CatCount => c.value) ∘ fun v =>
        (⟨v, vals.count v, vals.indexOf v⟩ : CatCount)) (keepFirst vals)
        = keepFirst vals := List.map_id' _
    rwa [h2] at h
  refine h1.trans ?_
  refine (List.perm_ext_iff_of_nodup (nodup_keepFirst vals) (List.nodup_dedup vals)).mpr ?_
  intro a
  rw [mem_keepFirst, List.mem_dedup]

theorem sum_pct (l : List CatCount) (T : ℕ) :
    (l.map fun c => pctOf c.count T).sum = (((l.map (·.count)).sum : ℕ) : ℚ) / T * 100 := by
  induction l with
  | nil => simp
  | cons a t ih =>
      rw [List.map_cons, List.sum_cons, ih, List.map_cons, List.sum_cons, pctOf]
      push_cast
      ring

theorem valueCounts_pct_sum (vals : List String) (h : vals ≠ []) :
    ((valueCounts vals).map fun c => pctOf c.count vals.length).sum = 100 := by
  rw [sum_pct, valueCounts_counts_sum]
  have hT : ((vals.length : ℕ) : ℚ) ≠ 0 := by
    have : vals.length ≠ 0 := fun hc => h (List.length_eq_zero.mp hc)
    exact_mod_cast this
  field_simp

theorem valueCounts_valid (vals : List String) :
    validValueCounts vals (valueCounts vals) := by
  constructor
  · exact List.perm_insertionSort _ _
  · have hsorted : (valueCounts vals).Pairwise catLE := List.sorted_insertionSort _ _
    refine hsorted.imp ?_
    intro a b hab
    rcases hab with h | ⟨h, -⟩
    · exact le_of_lt h
    · exact le_of_eq h.symm

theorem sampleVar_nonneg (g : List ℚ) (h2 : 2 ≤ g.length) : 0 ≤ sampleVar g := by
  unfold sampleVar
  apply div_nonneg
  · apply List.sum_nonneg
    intro x hx
    obtain ⟨y, hy, rfl⟩ := List.mem_map.mp hx
    positivity
  · have : (2 : ℚ) ≤ (g.length : ℚ) := by exact_mod_cast h2
    linarith

theorem sqrtRound2_nat_brackets (a b : ℕ) (hb : 0 < b) :
    (1 ≤ (Nat.sqrt (40000 * a * b) + b) / (2 * b) →
      (2 * ((Nat.sqrt (40000 * a * b) + b) / (2 * b)) - 1) ^ 2 * b ≤ 40000 * a)
    ∧ 40000 * a < (2 * ((Nat.sqrt (40000 * a * b) + b) / (2 * b)) + 1) ^ 2 * b := by
  set N := 40000 * a * b with hN
  set s := Nat.sqrt N with hs
  set k := (s + b) / (2 * b) with hk
  have hsq : s ^ 2 ≤ N := Nat.sqrt_le' N
  have hs1 : N < (s + 1) ^ 2 := Nat.lt_succ_sqrt' N
  have hdl : k * (2 * b) ≤ s + b := Nat.div_mul_le_self _ _
  have hdu : s + b < (k + 1) * (2 * b) :=
    (Nat.div_lt_iff_lt_mul (by omega)).mp (Nat.lt_succ_self k)
  constructor
  · intro hk1
    have e1 : b * (2 * k - 1) + b = k * (2 * b) := by
      have h2k : 1 ≤ 2 * k := by omega
      rw [← Nat.mul_succ, Nat.succ_eq_add_one, Nat.sub_add_cancel h2k]
      ring_nf
    have e2 : b * (2 * k - 1) ≤ s := by omega
    have e3 : (b * (2 * k - 1)) ^ 2 ≤ s ^ 2 := Nat.pow_le_pow_left e2 2
    have e5 : ((2 * k - 1) ^ 2 * b) * b ≤ (40000 * a) * b := by
      calc ((2 * k - 1) ^ 2 * b) * b = (b * (2 * k - 1)) ^ 2 := by ring
      _ ≤ s ^ 2 := e3
      _ ≤ N := hsq
      _ = (40000 * a) * b := by rw [hN, Nat.mul_assoc]
    exact Nat.le_of_mul_le_mul_right e5 hb
  · have f0 : b * (2 * k + 1) + b = (k + 1) * (2 * b) := by ring
    have f1 : s + 1 ≤ b * (2 * k + 1) := by omega
    have f2 : N < (b * (2 * k + 1)) ^ 2 := lt_of_lt_of_le hs1 (Nat.pow_le_pow_left f1 2)
    have f3 : (40000 * a) * b < ((2 * k + 1) ^ 2 * b) * b := by
      calc (40000 * a) * b = N := by rw [hN, Nat.mul_assoc]
      _ < (b * (2 * k + 1)) ^ 2 := f2
      _ = ((2 * k + 1) ^ 2 * b) * b := by ring
    exact Nat.lt_of_mul_lt_mul_right f3

theorem sqrtRound2_brackets (v : ℚ) (hv : 0 ≤ v) :
    0 ≤ sqrtRound2 v
    ∧ (0 < sqrtRound2 v → (200 * sqrtRound2 v - 1) ^ 2 ≤ 40000 * v)
    ∧ 40000 * v < (200 * sqrtRound2 v + 1) ^ 2 := by
  have hb : 0 < v.den := v.den_pos
  obtain ⟨hnat1, hnat2⟩ := sqrtRound2_nat_brackets v.num.toNat v.den hb
  set k := (Nat.sqrt (40000 * v.num.toNat * v.den) + v.den) / (2 * v.den) with hk
  have hqk : sqrtRound2 v = (k : ℚ) / 100 := rfl
  have hbq : (0 : ℚ) < (v.den : ℚ) := by exact_mod_cast hb
  have hnum : ((v.num.toNat : ℕ) : ℚ) = ((v.num : ℤ) : ℚ) := by
    exact_mod_cast congrArg (fun z : ℤ => (z : ℚ))
      (Int.toNat_of_nonneg (Rat.num_nonneg.mpr hv))
  have hveq : v = ((v.num.toNat : ℕ) : ℚ) / ((v.den : ℕ) : ℚ) := by
    rw [hnum]
    exact (Rat.num_div_den v).symm
  have hveq40 : 40000 * v = (((40000 * v.num.toNat : ℕ) : ℚ)) / ((v.den : ℕ) : ℚ) := by
    conv_lhs => rw [hveq]
    push_cast
    ring
  refine ⟨by rw [hqk]; positivity, ?_, ?_⟩
  · intro hpos
    have hk1 : 1 ≤ k := by
      rcases Nat.eq_zero_or_pos k with h0 | h1
      · rw [hqk, h0] at hpos
        norm_num at hpos
      · exact h1
    have h200 : (200 : ℚ) * sqrtRound2 v - 1 = ((2 * k - 1 : ℕ) : ℚ) := by
      rw [hqk]
      push_cast [Nat.cast_sub (by omega : 1 ≤ 2 * k)]
      ring
    rw [h200, hveq40, le_div_iff₀ hbq]
    exact_mod_cast hnat1 hk1
  · have h200 : (200 : ℚ) * sqrtRound2 v + 1 = ((2 * k + 1 : ℕ) : ℚ) := by
      rw [hqk]
      push_cast
      ring
    rw [h200, hveq40, div_lt_iff₀ hbq]
    exact_mod_cast hnat2

/-- Population variance (ddof = 0, denominator `n`): the alternative the
claim rules out, written from the claim's words for comparison. -/
def popVar (g : List ℚ) : ℚ :=
  (g.map fun x => (x - rmean g) ^ 2).sum / (g.length : ℚ)

theorem sqrt_80000 : Nat.sqrt 80000 = 282 := by
  have h1 : 282 ≤ Nat.sqrt 80000 := Nat.le_sqrt.mpr (by norm_num)
  have h2 : Nat.sqrt 80000 < 283 := Nat.sqrt_lt.mpr (by norm_num)
  omega

theorem sqrt_40000 : Nat.sqrt 40000 = 200 := by
  have h1 : 200 ≤ Nat.sqrt 40000 := Nat.le_sqrt.mpr (by norm_num)
  have h2 : Nat.sqrt 40000 < 201 := Nat.sqrt_lt.mpr (by norm_num)
  omega

unseal Rat.mul Rat.add Rat.sub Rat.inv in
theorem sampleVar_example : sampleVar [1, 3] = 2 := by decide

unseal Rat.mul Rat.add Rat.sub Rat.inv in
theorem popVar_example : popVar [1, 3] = 1 := by decide

theorem sqrtRound2_two : sqrtRound2 (2 : ℚ) = 141 / 100 := by
  rw [sqrtRound2]
  rw [show ((2 : ℚ).num.toNat) = 2 from rfl, show ((2 : ℚ).den) = 1 from rfl]
  norm_num [sqrt_80000]

theorem sqrtRound2_one : sqrtRound2 (1 : ℚ) = 1 := by
  rw [sqrtRound2]
  rw [show ((1 : ℚ).num.toNat) = 1 from rfl, show ((1 : ℚ).den) = 1 from rfl]
  norm_num [sqrt_40000]

/-- C9: the per-category Rate Variation figure is the sample standard
deviation with ddof = 1, rounded (with the mean and median) to two
decimals: the displayed value `q` is the multiple of 1/100 nearest to the
square root of the ddof-1 sample variance, bracketed by
`(200q - 1)² ≤ 40000·Var ≤ (200q + 1)²`; on rates [1,3] it is 1.41,
whereas the population (ddof = 0) formula would display 1.00. -/
theorem rate_variation_sample_std :
    (∀ (ds : Dataset) (c : String), 2 ≤ (classRates ds c).length →
      ∃ q : ℚ, stdRounded (classRates ds c) = some q ∧ 0 ≤ q
        ∧ (0 < q → (200 * q - 1) ^ 2 ≤ 40000 * sampleVar (classRates ds c))
        ∧ 40000 * sampleVar (classRates ds c) < (200 * q + 1) ^ 2
        ∧ billingRateRow ds c
            = [c, fmtMoney2 ((meanOpt (classRates ds c)).map round2),
               fmtMoney2 ((medianOpt (classRates ds c)).map round2),
               fmtMoney2 (some q), toString (classRates ds c).length])
    ∧ sqrtRound2 (sampleVar [1, 3]) = 141 / 100
    ∧ sqrtRound2 (popVar [1, 3]) = 1
    ∧ (141 / 100 : ℚ) ≠ 1 := by
  refine ⟨?_, ?_, ?_, by norm_num⟩
  · intro ds c h2
    have hnlt : ¬ (classRates ds c).length < 2 := not_lt.mpr h2
    have hstd : stdRounded (classRates ds c) = some (sqrtRound2 (sampleVar (classRates ds c))) := by
      rw [stdRounded, if_neg hnlt]
    obtain ⟨hq0, hql, hqu⟩ := sqrtRound2_brackets _ (sampleVar_nonneg _ h2)
    refine ⟨sqrtRound2 (sampleVar (classRates ds c)), hstd, hq0, hql, hqu, ?_⟩
    rw [billingRateRow]
    rw [stdRounded, if_neg hnlt]
  · rw [sampleVar_example, sqrtRound2_two]
  · rw [popVar_example, sqrtRound2_one]

def ds9w : Dataset :=
  ⟨false, true, false, true, false,
   [⟨"", "X", "", some 1, ""⟩, ⟨"", "X", "", some 3, ""⟩]⟩

/-- Witness for C9 at a concrete input. -/
theorem rate_variation_sample_std_witness :
    2 ≤ (classRates ds9w "X").length
    ∧ ∃ q : ℚ, stdRounded (classRates ds9w "X") = some q ∧ 0 ≤ q
        ∧ (0 < q → (200 * q - 1) ^ 2 ≤ 40000 * sampleVar (classRates ds9w "X"))
        ∧ 40000 * sampleVar (classRates ds9w "X") < (200 * q + 1) ^ 2
        ∧ billingRateRow ds9w "X"
            = ["X", fmtMoney2 ((meanOpt (classRates ds9w "X")).map round2),
               fmtMoney2 ((medianOpt (classRates ds9w "X")).map round2),
               fmtMoney2 (some q), toString (classRates ds9w "X").length] :=
  ⟨by decide, rate_variation_sample_std.1 ds9w "X" (by decide)⟩

def ds6cex : Dataset := ⟨false, true, false, false, false, []⟩

unseal Rat.mul Rat.add Rat.sub Rat.inv in
/-- Counterexample to C6 as stated: a zero-row dataset that has the
`billing_class` column; the distribution is empty, so the sum of its
percentages is 0, not within 0.1 of 100. -/
theorem category_distribution_sums_cex :
    ¬ |((billingCounts ds6cex).map fun c => pctOf c.count ds6cex.rows.length).sum - 100|
        ≤ 1/10 := by
  decide

/-- C6 (amended): for every *non-empty* dataset, each categorical
distribution (billing class and contract type) has counts summing to the
total record count, exact percentages (denominator = total record count)
summing to exactly 100 — in particular within 0.1 of it — and every
distinct value preserved (the listed values are a permutation of the
deduplicated column). -/
theorem category_distribution_sums (ds : Dataset) (h : ds.rows ≠ []) :
    (((billingCounts ds).map (·.count)).sum = ds.rows.length
      ∧ ((billingCounts ds).map fun c => pctOf c.count ds.rows.length).sum = 100
      ∧ |((billingCounts ds).map fun c => pctOf c.count ds.rows.length).sum - 100| ≤ 1/10
      ∧ ((billingCounts ds).map (·.value)).Perm (classVals ds).dedup
      ∧ ∀ c ∈ billingCounts ds,
          pctOf c.count ds.rows.length = ((c.count : ℚ) / (ds.rows.length : ℚ)) * 100)
    ∧ (((negTypeCounts ds).map (·.count)).sum = ds.rows.length
      ∧ ((negTypeCounts ds).map fun c => pctOf c.count ds.rows.length).sum = 100
      ∧ |((negTypeCounts ds).map fun c => pctOf c.count ds.rows.length).sum - 100| ≤ 1/10
      ∧ ((negTypeCounts ds).map (·.value)).Perm (negTypeVals ds).dedup
      ∧ ∀ c ∈ negTypeCounts ds,
          pctOf c.count ds.rows.length = ((c.count : ℚ) / (ds.rows.length : ℚ)) * 100) := by
  have hcne : classVals ds ≠ [] := by
    intro hc
    apply h
    unfold classVals at hc
    exact List.map_eq_nil_iff.mp hc
  have hnne : negTypeVals ds ≠ [] := by
    intro hc
    apply h
    unfold negTypeVals at hc
    exact List.map_eq_nil_iff.mp hc
  have hclen : (classVals ds).length = ds.rows.length := by simp [classVals]
  have hnlen : (negTypeVals ds).length = ds.rows.length := by simp [negTypeVals]
  constructor
  · have hsum : ((billingCounts ds).map (·.count)).sum = (classVals ds).length :=
      valueCounts_counts_sum (classVals ds)
    have hpct : ((billingCounts ds).map fun c =>
        pctOf c.count (classVals ds).length).sum = 100 :=
      valueCounts_pct_sum (classVals ds) hcne
    rw [hclen] at hsum hpct
    exact ⟨hsum, hpct, by rw [hpct]; norm_num,
      valueCounts_values_perm_dedup (classVals ds), fun c _ => rfl⟩
  · have hsum : ((negTypeCounts ds).map (·.count)).sum = (negTypeVals ds).length :=
      valueCounts_counts_sum (negTypeVals ds)
    have hpct : ((negTypeCounts ds).map fun c =>
        pctOf c.count (negTypeVals ds).length).sum = 100 :=
      valueCounts_pct_sum (negTypeVals ds) hnne
    rw [hnlen] at hsum hpct
    exact ⟨hsum, hpct, by rw [hpct]; norm_num,
      valueCounts_values_perm_dedup (negTypeVals ds), fun c _ => rfl⟩

def ds6w : Dataset :=
  ⟨false, true, true, false, false,
   [⟨"", "Professional", "ffs", none, ""⟩, ⟨"", "Professional", "ffs", none, ""⟩,
    ⟨"", "Institutional", "per diem", none, ""⟩]⟩

/-- Witness for C6 (amended) at a concrete input. -/
theorem category_distribution_sums_witness :
    ((billingCounts ds6w).map (·.count)).sum = ds6w.rows.length
    ∧ ((billingCounts ds6w).map fun c => pctOf c.count ds6w.rows.length).sum = 100 :=
  ⟨(category_distribution_sums ds6w (by decide)).1.1,
   (category_distribution_sums ds6w (by decide)).1.2.1⟩

def ds7cex : Dataset :=
  ⟨false, true, false, false, false,
   [⟨"", "b", "", none, ""⟩, ⟨"", "a", "", none, ""⟩]⟩

/-- Counterexample to C7 as stated: the source guarantees only
`validValueCounts` (an unstable sort fixes no tie order).  For the
billing-class column of a concrete two-row dataset with classes "b" then
"a", the list that places "a" before "b" is a valid `value_counts` output,
yet its two equal-count entries are not in first-appearance order. -/
theorem distributions_ties_cex :
    validValueCounts (classVals ds7cex)
      [(⟨"a", 1, 1⟩ : CatCount), ⟨"b", 1, 0⟩]
    ∧ ¬ ([(⟨"a", 1, 1⟩ : CatCount), ⟨"b", 1, 0⟩].Pairwise
          fun a b => b.count < a.count ∨ (a.count = b.count ∧ a.firstIdx < b.firstIdx)) := by
  constructor
  · unfold validValueCounts
    decide
  · decide

/-- C7 (amended): each category distribution and the full city ranking are
a valid `value_counts` result — exactly the distinct column values, each
with its multiplicity and first-appearance index, in non-increasing count
order.  The relative order of equal-count entries is unspecified by the
source (the underlying sort is unstable), so the original first-appearance
tie-break is not a program guarantee; the embedding's deterministic tie
choice is one allowed resolution. -/
theorem distributions_sorted_desc (ds : Dataset) :
    validValueCounts (classVals ds) (billingCounts ds)
    ∧ validValueCounts (negTypeVals ds) (negTypeCounts ds)
    ∧ validValueCounts (cityVals ds) (cityStatsRanking ds) :=
  ⟨valueCounts_valid _, valueCounts_valid _, valueCounts_valid _⟩

def ds8cex : Dataset := ⟨false, false, false, false, true, [⟨"", "", "", none, "A"⟩]⟩

unseal Rat.mul Rat.add Rat.sub Rat.inv in
/-- Counterexample to C8 as stated: with a city column present but no rate
column, the bar chart is still built and charts no city at all, while the
first min(15, distinct-city-count) entries of the ranking are non-empty. -/
theorem chart_cities_cex :
    (chartSeries ds8cex).map Prod.fst
      ≠ ((cityStatsRanking ds8cex).take
          (min 15 (cityStatsRanking ds8cex).length)).map (·.value)
    ∧ RElem.barChart (chartSeries ds8cex) ∈ buildReport ds8cex := by
  decide

/-- C8 (amended): when the rate column is (also) present, the charted
cities are exactly the first min(15, distinct-city-count) entries of the
canonical ranking, in order, and each bar's value is computed by the same
expression that produces the city table's Average Rate cell. -/
theorem chart_cities (ds : Dataset) (h : ds.hasRate = true) :
    chartSeries ds
      = ((cityStatsRanking ds).take 15).map
          (fun c => (c.value, meanOpt (cityRates ds c.value)))
    ∧ ∀ p ∈ chartSeries ds, ∃ c ∈ cityStatsRanking ds,
        c.value = p.1 ∧ (cityRow ds c).getD 3 "" = fmtMoney0 p.2 := by
  have hmain : chartSeries ds
      = ((cityStatsRanking ds).take 15).map
          (fun c => (c.value, meanOpt (cityRates ds c.value))) := by
    unfold chartSeries
    refine filterMap_if_all _ _ _ ?_
    intro c hc
    exact ⟨by rw [h], cityGroup_ne_nil (List.take_subset _ _ hc)⟩
  refine ⟨hmain, ?_⟩
  intro p hp
  rw [hmain] at hp
  obtain ⟨c, hc, rfl⟩ := List.mem_map.mp hp
  refine ⟨c, List.take_subset _ _ hc, rfl, ?_⟩
  simp [cityRow, h]

def ds8w : Dataset := ⟨false, false, false, true, true, [⟨"", "", "", some 5, "A"⟩]⟩

/-- Witness for C8 (amended) at a concrete input. -/
theorem chart_cities_witness :
    chartSeries ds8w
      = ((cityStatsRanking ds8w).take 15).map
          (fun c => (c.value, meanOpt (cityRates ds8w c.value)))
    ∧ ∀ p ∈ chartSeries ds8w, ∃ c ∈ cityStatsRanking ds8w,
        c.value = p.1 ∧ (cityRow ds8w c).getD 3 "" = fmtMoney0 p.2 :=
  chart_cities ds8w rfl

def ds1bug : Dataset :=
  ⟨false, true, false, true, true, [⟨"", "Professional", "", none, "A"⟩]⟩

unseal Rat.mul Rat.add Rat.sub Rat.inv in
/-- C1 at the failing input: the rate column is present but the only
record's rate is missing, so the city's mean/median and the class's
mean/median/std are pandas NaN; the report renders them as the literal
string "$nan" inside table cells, not as "N/A". -/
theorem nan_reaches_table_cells :
    RElem.table (cityTable ds1bug) ∈ buildReport ds1bug
    ∧ ["A", "1", "100.0%", "$nan", "$nan"] ∈ cityTable ds1bug
    ∧ RElem.table (billingRateTable ds1bug) ∈ buildReport ds1bug
    ∧ ["Professional", "$nan", "$nan", "$nan", "0"] ∈ billingRateTable ds1bug
    ∧ "$nan" ≠ "N/A" := by
  decide

/-- Witness for C2 (amended) at a concrete input. -/
theorem rate_section_partial_witness :
    RElem.heading rateHeading ∈ buildReport ds2cex
    ∧ RElem.text rateExplanation ∈ buildReport ds2cex
    ∧ (∀ t, RElem.table t ∈ buildReport ds2cex → t.head? ≠ some ["What This Means", "Value"])
    ∧ (∀ e ∈ buildReport ds2cex, ∀ rs, e ≠ RElem.histChart rs) :=
  rate_section_partial ds2cex (Or.inl rfl)

/-- C3: the figures shown by the interactive preview equal the figures
placed in the exported document: the CPT code, the total record count, the
five key rate statistics (gated by the same column/emptiness conditions),
the three categorical distributions, the per-class displayed average-rate
cents (export rounds the mean before formatting, preview formats the raw
mean — same displayed value), and the top-15 bar-chart series. -/
theorem preview_matches_export (ds : Dataset) :
    reportCpt ds = previewCpt ds
    ∧ exportTotalRecords ds = previewTotalRecords ds
    ∧ exportRateStatsView ds = previewRateStatsView ds
    ∧ billingCounts ds = previewBillingCounts ds
    ∧ (∀ c : String, exportCatMeanCents ds c = previewCatMeanCents ds c)
    ∧ negTypeCounts ds = previewNegTypeCounts ds
    ∧ cityStatsRanking ds = previewCityRanking ds
    ∧ chartSeries ds = previewChartSeries ds := by
  refine ⟨rfl, rfl, rfl, rfl, ?_, rfl, rfl, chartSeries_eq_previewChartSeries ds⟩
  intro c
  unfold exportCatMeanCents previewCatMeanCents
  cases meanOpt (classRates ds c) with
  | none => rfl
  | some q => simp [round_round2_cents]

/-- C10: when the `billing_code` column is absent both the export and the
preview display the hardcoded default CPT code 27130 in the title and
metadata; when it is present, the displayed code is the first record's,
regardless of the codes of later records. -/
theorem cpt_code_default (ds : Dataset) :
    (ds.hasBillingCode = false →
       reportCpt ds = "27130" ∧ previewCpt ds = "27130"
       ∧ RElem.heading "CPT 27130 Analysis Report" ∈ buildReport ds
       ∧ RElem.text "CPT Code: 27130" ∈ buildReport ds)
    ∧ (∀ r : Record, ∀ t : List Record, ds.hasBillingCode = true → ds.rows = r :: t →
        reportCpt ds = r.billing_code ∧ previewCpt ds = r.billing_code) := by
  constructor
  · intro h
    have hc : reportCpt ds = "27130" := by simp [reportCpt, h]
    refine ⟨hc, by simp [previewCpt, h], ?_, ?_⟩
    · have : RElem.heading "CPT 27130 Analysis Report" ∈ titleSection ds := by
        simp [titleSection, hc]
      exact List.mem_append.mpr (Or.inl (List.mem_append.mpr (Or.inl
        (List.mem_append.mpr (Or.inl (List.mem_append.mpr (Or.inl this)))))))
    · have : RElem.text "CPT Code: 27130" ∈ titleSection ds := by
        simp [titleSection, hc]
      exact List.mem_append.mpr (Or.inl (List.mem_append.mpr (Or.inl
        (List.mem_append.mpr (Or.inl (List.mem_append.mpr (Or.inl this)))))))
  · intro r t hcol hrows
    constructor
    · simp [reportCpt, hcol, hrows]
    · simp [previewCpt, hcol, hrows]

def dsNoCode : Dataset := ⟨false, false, false, false, false, []⟩

def dsTwoCodes : Dataset :=
  ⟨true, false, false, false, false,
   [⟨"27447", "", "", none, ""⟩, ⟨"99999", "", "", none, ""⟩]⟩

/-- Witness for C10 at concrete inputs: the default code without the
column, and the first record's code (not the second's) with it. -/
theorem cpt_code_default_witness :
    (reportCpt dsNoCode = "27130" ∧ previewCpt dsNoCode = "27130"
      ∧ RElem.heading "CPT 27130 Analysis Report" ∈ buildReport dsNoCode
      ∧ RElem.text "CPT Code: 27130" ∈ buildReport dsNoCode)
    ∧ reportCpt dsTwoCodes = "27447" ∧ previewCpt dsTwoCodes = "27447" :=
  ⟨(cpt_code_default dsNoCode).1 rfl,
   ((cpt_code_default dsTwoCodes).2 ⟨"27447", "", "", none, ""⟩
      [⟨"99999", "", "", none, ""⟩] rfl rfl).1,
   ((cpt_code_default dsTwoCodes).2 ⟨"27447", "", "", none, ""⟩
      [⟨"99999", "", "", none, ""⟩] rfl rfl).2⟩

end CptReport
